import Mathlib

set_option maxRecDepth 80000
set_option maxHeartbeats 1000000

deriving instance DecidableEq for Except

/-!
Verification development for the `leostimpfle.github.io` code samples:
* `_code/2024-02-03-non-separating_commas.py` — a regex-based repair of a
  malformed CSV sample followed by a CSV parse;
* `_code/2024-02-10-fixed_effects.py` — a synthetic fixed-effects panel
  generator and the demeaning transformations of its visualization driver.

Strings are modelled as `List Char`, Python floats as `ℚ`, and the global
numpy random generator as a function of the seed (the source reseeds the
generator immediately before every draw, so each draw is a pure function of
the literal seed and the draw size).
-/

namespace CommaRepair

/-- The substring of `s` from position `a` (inclusive) to `b` (exclusive). -/
def slice (s : List Char) (a b : Nat) : List Char :=
  (s.drop a).take (b - a)

/-- Length of the maximal prefix of `l` consisting of characters other than `c`. -/
def notRun (c : Char) : List Char → Nat
  | [] => 0
  | x :: xs => if x = c then 0 else notRun c xs + 1

/-- The fragment of Python's regex language used by the repair pattern
`(?P<keep1>^|,"[^"]*)(?P<innerQuote1>")(?!,)(?P<keep2>[^"]+)(?P<innerQuote2>")(?P<keep3>[^"]*",|$)`:
anchors `^` and `$` (no MULTILINE), literals, the class `[^c]` under `*` and `+`
(greedy), a single-character negative lookahead, alternation, sequencing and
named groups. -/
inductive RE where
  | anchorStart : RE
  | anchorEnd : RE
  | lit : Char → RE
  | starNot : Char → RE
  | plusNot : Char → RE
  | negLookahead : Char → RE
  | alt : RE → RE → RE
  | seq : RE → RE → RE
  | group : String → RE → RE

/-- Backtracking matcher.  `matchRE r s pos` returns every way `r` can match a
prefix of `s.drop pos`, as a pair (named captures, end position), in Python's
backtracking priority order (first alternative first, greedy repetition
longest first); the head of the list is the match Python's engine reports. -/
def matchRE : RE → List Char → Nat → List (List (String × List Char) × Nat)
  | .anchorStart, _, pos => if pos = 0 then [([], pos)] else []
  | .anchorEnd, s, pos =>
      if pos = s.length ∨ (pos + 1 = s.length ∧ s.getD pos ' ' = '\n') then [([], pos)] else []
  | .lit c, s, pos =>
      if pos < s.length ∧ s.getD pos ' ' = c then [([], pos + 1)] else []
  | .starNot c, s, pos =>
      (List.range (notRun c (s.drop pos) + 1)).reverse.map (fun i => ([], pos + i))
  | .plusNot c, s, pos =>
      (List.range (notRun c (s.drop pos))).reverse.map (fun i => ([], pos + i + 1))
  | .negLookahead c, s, pos =>
      if pos < s.length ∧ s.getD pos ' ' = c then [] else [([], pos)]
  | .alt r1 r2, s, pos => matchRE r1 s pos ++ matchRE r2 s pos
  | .seq r1 r2, s, pos =>
      (matchRE r1 s pos).flatMap fun p =>
        (matchRE r2 s p.2).map fun q => (p.1 ++ q.1, q.2)
  | .group nm r, s, pos =>
      (matchRE r s pos).map fun p => ((nm, slice s pos p.2) :: p.1, p.2)

/-- The `re.sub` scanning loop: walk the string left to right, at each position take
the engine's first match (if any), emit the replacement and resume after the
match; positions with no match are copied verbatim.  An empty-width match emits
its replacement and then copies one character, as Python does. -/
def subAux (pat : RE) (rf : List (String × List Char) → List Char) (s : List Char) :
    Nat → Nat → List Char
  | 0, pos => s.drop pos
  | fuel + 1, pos =>
      if pos < s.length then
        match (matchRE pat s pos).head? with
        | some (g, e) =>
            if pos < e then rf g ++ subAux pat rf s fuel e
            else rf g ++ s.getD pos ' ' :: subAux pat rf s fuel (pos + 1)
        | none => s.getD pos ' ' :: subAux pat rf s fuel (pos + 1)
      else
        match (matchRE pat s pos).head? with
        | some (g, _) => rf g
        | none => []

/-- Python `re.sub(pattern, repl, s)`. -/
def re_sub (pat : RE) (rf : List (String × List Char) → List Char) (s : List Char) : List Char :=
  subAux pat rf s (s.length + 1) 0

/-- Fragment `(?P<keep1>^|,"[^"]*)` of the pattern. -/
def patKeep1 : RE :=
  .group "keep1" (.alt .anchorStart (.seq (.lit ',') (.seq (.lit '"') (.starNot '"'))))

/-- Fragment `(?P<innerQuote1>")` of the pattern. -/
def patIQ1 : RE := .group "innerQuote1" (.lit '"')

/-- Fragment `(?P<keep2>[^"]+)` of the pattern. -/
def patKeep2 : RE := .group "keep2" (.plusNot '"')

/-- Fragment `(?P<innerQuote2>")` of the pattern. -/
def patIQ2 : RE := .group "innerQuote2" (.lit '"')

/-- Fragment `(?P<keep3>[^"]*",|$)` of the pattern. -/
def patKeep3 : RE :=
  .group "keep3" (.alt (.seq (.starNot '"') (.seq (.lit '"') (.lit ','))) .anchorEnd)

/-- The pattern
`(?P<keep1>^|,"[^"]*)(?P<innerQuote1>")(?!,)(?P<keep2>[^"]+)(?P<innerQuote2>")(?P<keep3>[^"]*",|$)`
from the source. -/
def pattern : RE :=
  .seq patKeep1 (.seq patIQ1 (.seq (.negLookahead ',') (.seq patKeep2 (.seq patIQ2 patKeep3))))

/-- Helper `deal_with_inner_quotes`: replace double quotes with single quotes. -/
def deal_with_inner_quotes (l : List Char) : List Char :=
  l.map fun c => if c = '"' then '\'' else c

/-- The replacement callback `repl`: keep the three `keep` groups, rewrite the
two `innerQuote` groups. -/
def repl (g : List (String × List Char)) : List Char :=
  ((g.lookup "keep1").getD [])
    ++ deal_with_inner_quotes ((g.lookup "innerQuote1").getD [])
    ++ ((g.lookup "keep2").getD [])
    ++ deal_with_inner_quotes ((g.lookup "innerQuote2").getD [])
    ++ ((g.lookup "keep3").getD [])

/-- The documented three-line malformed sample. -/
def sample : List Char :=
  ("column1, column2, column3\n1,\"text without quote, but comma\", 1\n2,\"text quoting \"a sentence, words, and more\" in a single cell\", 2\n").toList

/-- The repaired text `sample_fixed = re.sub(pattern, repl, sample)`. -/
def sample_fixed : List Char := re_sub pattern repl sample

/-- A parsed CSV cell: pandas parses whitespace-padded digit fields as integers,
empty fields as missing values, everything else as text. -/
inductive Cell where
  | nan : Cell
  | int : Int → Cell
  | str : String → Cell
deriving DecidableEq

/-- Failures of `pd.read_csv`.  The first two are `pandas.errors.ParserError`s
(the class the driver catches); `emptyData` models `EmptyDataError`, which is a
different class and would propagate. -/
inductive ReadCsvError where
  | badLine : Nat → Nat → ReadCsvError
  | eofInsideString : ReadCsvError
  | emptyData : ReadCsvError
deriving DecidableEq

/-- Whether an error is a `pandas.errors.ParserError`. -/
def ReadCsvError.isParserError : ReadCsvError → Bool
  | .badLine _ _ => true
  | .eofInsideString => true
  | .emptyData => false

/-- Tokenizer states of the comma/quote-aware CSV reader. -/
inductive TState where
  | startField | inField | inQuoted | quoteInQuoted

/-- CSV tokenizer (the quote-handling state machine of pandas' parser): a field
beginning with `"` is quoted; `""` inside a quoted field is an escaped quote; a
lone quote inside a quoted field closes it and, if ordinary text follows, the
field silently continues unquoted (the non-strict behaviour that makes the
malformed sample split at its interior commas). Blank lines are skipped. -/
def tokenizeAux : List Char → TState → List Char → List (List Char) →
    List (List (List Char)) → Except ReadCsvError (List (List (List Char)))
  | [], st, field, fields, recs =>
    match st with
    | .inQuoted => .error .eofInsideString
    | .startField => if fields.isEmpty then .ok recs.reverse
        else .ok ((( field :: fields).reverse) :: recs).reverse
    | _ => .ok (((field :: fields).reverse) :: recs).reverse
  | c :: rest, st, field, fields, recs =>
    match st with
    | .startField =>
      if c = '"' then tokenizeAux rest .inQuoted [] fields recs
      else if c = ',' then tokenizeAux rest .startField [] ([] :: fields) recs
      else if c = '\n' then
        if fields.isEmpty then tokenizeAux rest .startField [] [] recs
        else tokenizeAux rest .startField [] [] ((([] : List Char) :: fields).reverse :: recs)
      else tokenizeAux rest .inField [c] fields recs
    | .inField =>
      if c = ',' then tokenizeAux rest .startField [] (field :: fields) recs
      else if c = '\n' then tokenizeAux rest .startField [] [] ((field :: fields).reverse :: recs)
      else tokenizeAux rest .inField (field ++ [c]) fields recs
    | .inQuoted =>
      if c = '"' then tokenizeAux rest .quoteInQuoted field fields recs
      else tokenizeAux rest .inQuoted (field ++ [c]) fields recs
    | .quoteInQuoted =>
      if c = '"' then tokenizeAux rest .inQuoted (field ++ ['"']) fields recs
      else if c = ',' then tokenizeAux rest .startField [] (field :: fields) recs
      else if c = '\n' then tokenizeAux rest .startField [] [] ((field :: fields).reverse :: recs)
      else tokenizeAux rest .inField (field ++ [c]) fields recs

/-- Split CSV text into records of raw fields. -/
def tokenize (s : List Char) : Except ReadCsvError (List (List (List Char))) :=
  tokenizeAux s .startField [] [] []

/-- Strip leading and trailing spaces. -/
def stripSpaces (l : List Char) : List Char :=
  ((l.dropWhile (· = ' ')).reverse.dropWhile (· = ' ')).reverse

/-- Digit string to integer. -/
def digitsToInt (l : List Char) : Int :=
  Int.ofNat (l.foldl (fun a c => a * 10 + (c.toNat - '0'.toNat)) 0)

/-- pandas' per-field value inference: whitespace-padded digit runs become
integers, empty fields missing values, anything else text (kept verbatim). -/
def parseCell (l : List Char) : Cell :=
  let t := stripSpaces l
  if t.isEmpty then .nan
  else if t.all Char.isDigit then .int (digitsToInt t)
  else .str (String.mk l)

/-- A parsed table: header names and data rows. -/
structure Table where
  header : List String
  rows : List (List Cell)
deriving DecidableEq

/-- Turn one raw record into a data row: a record with more fields than the
header is a `ParserError` (pandas: "Expected n fields, saw m"); a shorter one is
padded with missing values. -/
def makeRow (ncols : Nat) (rec : List (List Char)) : Except ReadCsvError (List Cell) :=
  if ncols < rec.length then .error (.badLine ncols rec.length)
  else .ok (rec.map parseCell ++ List.replicate (ncols - rec.length) .nan)

/-- Model of `pd.read_csv` on the in-memory text: tokenize, use the first record as the
header, and convert every following record. -/
def read_csv (s : List Char) : Except ReadCsvError Table := do
  let recs ← tokenize s
  match recs with
  | [] => .error .emptyData
  | header :: body =>
    let ncols := header.length
    let rows ← body.mapM (makeRow ncols)
    .ok ⟨header.map String.mk, rows⟩

/-- The module-level `try: pd.read_csv(...) except pandas.errors.ParserError:
print('Parser unable to read file')` block: the diagnostic the script prints,
if any. -/
def parser_message (s : List Char) : Option String :=
  match read_csv s with
  | .error e => if e.isParserError then some "Parser unable to read file" else none
  | .ok _ => none

/-- Syntactic check that a regex contains no capture groups. -/
def noGroups : RE → Bool
  | .group _ _ => false
  | .alt r1 r2 => noGroups r1 && noGroups r2
  | .seq r1 r2 => noGroups r1 && noGroups r2
  | _ => true

/-- A small input on which the repair pattern matches, used to instantiate the
frame-property theorem. -/
def demoMatchInput : List Char := (",\"a\"b\"c\",").toList

/-- The captures of the repair pattern's match on `demoMatchInput`. -/
def demoMatchCaps : List (String × List Char) :=
  [("keep1", [',', '"', 'a']), ("innerQuote1", ['"']), ("keep2", ['b']),
   ("innerQuote2", ['"']), ("keep3", ['c', '"', ','])]

end CommaRepair


namespace FixedEffects

/-- Abstract interface to numpy's global pseudo-random generator under the
source's reseed-immediately-before-draw discipline: each draw is a pure
function of the literal seed and the draw parameters.
`uniform1 s lo hi` models `np.random.seed(s); np.random.uniform(lo, hi)`,
`uniformV` the vector form, `randintV` `np.random.randint(lo, hi, size)`. -/
structure RNG where
  uniform1 : Nat → ℚ → ℚ → ℚ
  uniformV : Nat → ℚ → ℚ → Nat → List ℚ
  randintV : Nat → Nat → Nat → Nat → List Nat

/-- The numpy API contract for the draws the source performs: drawn vectors
have the requested length and draws lie in `[low, high)`. -/
structure RNG.Spec (g : RNG) : Prop where
  uniform1_mem : ∀ s lo hi, lo < hi → lo ≤ g.uniform1 s lo hi ∧ g.uniform1 s lo hi < hi
  uniformV_length : ∀ s lo hi n, (g.uniformV s lo hi n).length = n
  uniformV_mem : ∀ s lo hi n, lo < hi → ∀ x ∈ g.uniformV s lo hi n, lo ≤ x ∧ x < hi
  randintV_length : ∀ s lo hi n, (g.randintV s lo hi n).length = n
  randintV_mem : ∀ s lo hi n, lo < hi → ∀ x ∈ g.randintV s lo hi n, lo ≤ x ∧ x < hi

/-- Enumeration `PropertyAlpha`: `A = 2`, `B = 3`. -/
inductive PropertyAlpha where
  | A | B
deriving DecidableEq

def PropertyAlpha.value : PropertyAlpha → ℚ
  | .A => 2
  | .B => 3

def PropertyAlpha.name : PropertyAlpha → String
  | .A => "A"
  | .B => "B"

/-- Enumeration `PropertyBeta`: `A = 0.5`, `B = 1.5`. -/
inductive PropertyBeta where
  | A | B
deriving DecidableEq

def PropertyBeta.value : PropertyBeta → ℚ
  | .A => 1 / 2
  | .B => 3 / 2

def PropertyBeta.name : PropertyBeta → String
  | .A => "A"
  | .B => "B"

/-- Enumeration `PropertyDummy`: `TRUE = 1`, `FALSE = 0`. -/
inductive PropertyDummy where
  | TRUE | FALSE
deriving DecidableEq

def PropertyDummy.value : PropertyDummy → Nat
  | .TRUE => 1
  | .FALSE => 0

def PropertyDummy.name : PropertyDummy → String
  | .TRUE => "TRUE"
  | .FALSE => "FALSE"

/-- A cluster: an (alpha, beta, dummy) property triple. -/
structure Cluster where
  property_alpha : PropertyAlpha
  property_beta : PropertyBeta
  property_dummy : PropertyDummy
deriving DecidableEq

inductive Effects where
  | Fixed | Random
deriving DecidableEq

inductive Noise where
  | TRUE | FALSE
deriving DecidableEq

def Noise.value : Noise → Bool
  | .TRUE => true
  | .FALSE => false

/-- The `NotImplementedError` raised on the `Random` effects branches. -/
inductive NotImplError where
  | notImplemented
deriving DecidableEq

/-- An individual: identifier, cluster, effects type and noise flag. -/
structure Individual where
  identifier : Nat
  cluster : Cluster
  effects_type : Effects
  noise : Noise
deriving DecidableEq

/-- Property `Individual.slope`: `1.0` under `Fixed` effects, `NotImplementedError`
under `Random`. -/
def Individual.slope (ind : Individual) : Except NotImplError ℚ :=
  match ind.effects_type with
  | .Fixed => .ok 1
  | .Random => .error .notImplemented

/-- Property `Individual.intercept`: the cluster's alpha value under `Fixed` effects,
`NotImplementedError` under `Random`. -/
def Individual.intercept (ind : Individual) : Except NotImplError ℚ :=
  match ind.effects_type with
  | .Fixed => .ok ind.cluster.property_alpha.value
  | .Random => .error .notImplemented

/-- Method `_get_individual_fixed_effect`: reseed with the identifier, one scalar
uniform draw from `[-1, 1]`. -/
def Individual.get_individual_fixed_effect (g : RNG) (ind : Individual) : ℚ :=
  g.uniform1 ind.identifier (-1) 1

/-- Method `_get_time_fixed_effect`: reseed with `0` (regardless of the individual),
draw a vector uniformly from `[-1, 1]`, sort ascending, reverse to descending. -/
def Individual.get_time_fixed_effect (g : RNG) (_ind : Individual) (size : Nat) : List ℚ :=
  (List.insertionSort (· ≤ ·) (g.uniformV 0 (-1) 1 size)).reverse

/-- Method `_get_noise`: `rng = slope * 0.1`; reseed with `2 * identifier`; draw a
vector uniformly from `[-rng, rng]`. -/
def Individual.get_noise (g : RNG) (ind : Individual) (size : Nat) :
    Except NotImplError (List ℚ) := do
  let scale : ℚ := 1 / 10
  let rng := (← ind.slope) * scale
  pure (g.uniformV (2 * ind.identifier) (-rng) rng size)

/-- One row of an individual's time-series table: the `Year` and
cluster-property index levels, the `Post`/`Treatment` levels appended by
`set_index`, and the data columns. -/
structure Row where
  year : Nat
  property_alpha : String
  property_beta : String
  property_dummy : String
  post : Bool
  treatment : Bool
  slope : ℚ
  intercept : ℚ
  fixedEffectIndividual : ℚ
  fixedEffectTime : ℚ
  dependent : ℚ
deriving DecidableEq

def defaultRow : Row :=
  ⟨0, "", "", "", false, false, 0, 0, 0, 0, 0⟩

/-- Method `Individual.time_series(start_year, end_year, treatment_year=None)`:
default treatment year `end_year - (end_year - start_year) // 2`; years
`[start_year, end_year)`; `Post = (year >= treatment_year)`;
`Treatment = Post & dummy`; `Dependent` is the column expression
`Slope.multiply(Treatment).add(Intercept).add(FixedEffectIndividual)
.add(FixedEffectTime)`, with the noise vector added afterwards when the noise
flag is on.  Accessing `slope`/`intercept` raises under `Random` effects. -/
def Individual.time_series (g : RNG) (ind : Individual) (start_year end_year : Nat)
    (treatment_year : Option Nat) : Except NotImplError (List Row) := do
  let ty := treatment_year.getD (end_year - (end_year - start_year) / 2)
  let time := List.range' start_year (end_year - start_year)
  let post := time.map fun y => decide (ty ≤ y)
  let treatmentCol := time.map fun y =>
    decide (ty ≤ y) && decide (ind.cluster.property_dummy.value = 1)
  let slope ← ind.slope
  let intercept ← ind.intercept
  let fei := ind.get_individual_fixed_effect g
  let fet := ind.get_time_fixed_effect g time.length
  let dependent := List.zipWith
    (fun t f => slope * (if t then (1 : ℚ) else 0) + intercept + fei + f) treatmentCol fet
  let dependent ←
    if ind.noise.value then do
      let nv ← ind.get_noise g time.length
      pure (List.zipWith (· + ·) dependent nv)
    else
      pure dependent
  pure ((List.range time.length).map fun k =>
    { year := time.getD k 0
      property_alpha := ind.cluster.property_alpha.name
      property_beta := ind.cluster.property_beta.name
      property_dummy := ind.cluster.property_dummy.name
      post := post.getD k false
      treatment := treatmentCol.getD k false
      slope := slope
      intercept := intercept
      fixedEffectIndividual := fei
      fixedEffectTime := fet.getD k 0
      dependent := dependent.getD k 0 })

/-- A row of the assembled panel: an individual's row keyed by the new
`Individual` index level that `pd.concat` introduces. -/
structure SRow extends Row where
  individual : Nat
deriving DecidableEq

def defaultSRow : SRow :=
  { toRow := defaultRow, individual := 0 }

/-- The three seed clusters of `Sample._init_clusters`. -/
def seed_clusters : List Cluster :=
  [⟨.A, .B, .TRUE⟩, ⟨.A, .A, .TRUE⟩, ⟨.B, .A, .FALSE⟩]

/-- The repeat counts of `_init_clusters`: reseed with `10`, draw three
integers from `[3, 10)`, sort ascending in place. -/
def Sample.repeats (g : RNG) : List Nat :=
  List.insertionSort (· ≤ ·) (g.randintV 10 3 10 3)

/-- Pool construction `np.repeat(seed_clusters, repeats)`: each seed cluster, in original order,
repeated by the count at its position. -/
def Sample.init_clusters (g : RNG) : List Cluster :=
  (List.zipWith (fun c r => List.replicate r c) seed_clusters (Sample.repeats g)).flatten

/-- Method `_init_individuals`: `Individual(identifier=i, cluster=pool[i], ...)`. -/
def Sample.init_individuals (clusters : List Cluster) (effects : Effects) (noise : Noise) :
    List Individual :=
  clusters.enum.map fun p => ⟨p.1, p.2, effects, noise⟩

/-- Method `_init_sample`: concatenate every individual's time series keyed by its
identifier.  The `treatment_year` the `Sample` constructor received is *not*
forwarded to `time_series`. -/
def Sample.build_data (g : RNG) (inds : List Individual) (start_year end_year : Nat) :
    Except NotImplError (List SRow) := do
  let tss ← inds.mapM fun ind => do
    let rows ← ind.time_series g start_year end_year none
    pure (rows.map fun r => ({ toRow := r, individual := ind.identifier } : SRow))
  pure tss.flatten

structure Sample where
  clusters : List Cluster
  individuals : List Individual
  data : List SRow
deriving DecidableEq

/-- Constructor `Sample(start_year, end_year, treatment_year, effects, noise)`. -/
def Sample.make (g : RNG) (start_year end_year : Nat) (treatment_year : Option Nat)
    (effects : Effects) (noise : Noise) : Except NotImplError Sample := do
  let clusters := Sample.init_clusters g
  let individuals := Sample.init_individuals clusters effects noise
  let data ← Sample.build_data g individuals start_year end_year
  pure ⟨clusters, individuals, data⟩


/-- Closed form of row `k` of `Individual.time_series` under `Fixed` effects
(established by `time_series_fixed`). -/
def tsRow (g : RNG) (ind : Individual) (sy ey : Nat) (t : Option Nat) (k : Nat) : Row :=
  { year := sy + k
    property_alpha := ind.cluster.property_alpha.name
    property_beta := ind.cluster.property_beta.name
    property_dummy := ind.cluster.property_dummy.name
    post := decide (t.getD (ey - (ey - sy) / 2) ≤ sy + k)
    treatment := decide (t.getD (ey - (ey - sy) / 2) ≤ sy + k) &&
      decide (ind.cluster.property_dummy.value = 1)
    slope := 1
    intercept := ind.cluster.property_alpha.value
    fixedEffectIndividual := ind.get_individual_fixed_effect g
    fixedEffectTime := (ind.get_time_fixed_effect g (ey - sy)).getD k 0
    dependent :=
      1 * (if (decide (t.getD (ey - (ey - sy) / 2) ≤ sy + k) &&
            decide (ind.cluster.property_dummy.value = 1) : Bool) then (1 : ℚ) else 0) +
        ind.cluster.property_alpha.value + ind.get_individual_fixed_effect g +
        (ind.get_time_fixed_effect g (ey - sy)).getD k 0 +
        (if ind.noise.value then
            (g.uniformV (2 * ind.identifier) (-(1 / 10)) (1 / 10) (ey - sy)).getD k 0
          else 0) }

/-- Closed form of a row of the assembled panel (established by
`build_data_fixed`). -/
def panelRow (g : RNG) (ind : Individual) (sy ey k : Nat) : SRow :=
  { toRow := tsRow g ind sy ey none k, individual := ind.identifier }

/-- Mean of a list of rationals (`Series.mean`). -/
def mean_list (l : List ℚ) : ℚ := l.sum / l.length

/-- Group mean `sample.data.Dependent.groupby('Individual').mean()` evaluated at `i`. -/
def mean_individual (data : List SRow) (i : Nat) : ℚ :=
  mean_list ((data.filter fun r => r.individual == i).map fun r => r.dependent)

/-- Group mean `sample.data.Dependent.groupby('Year').mean()` evaluated at `y`. -/
def mean_time (data : List SRow) (y : Nat) : ℚ :=
  mean_list ((data.filter fun r => r.year == y).map fun r => r.dependent)

/-- Grand mean `sample.data.Dependent.mean()`. -/
def grand_mean (data : List SRow) : ℚ :=
  mean_list (data.map fun r => r.dependent)

/-- Series `sample_individual = Dependent.subtract(mean_individual)` (broadcast on the
`Individual` level). -/
def sample_individual (data : List SRow) : List SRow :=
  data.map fun r => { r with dependent := r.dependent - mean_individual data r.individual }

/-- Series `sample_time = Dependent.subtract(mean_time)` (broadcast on the `Year`
level). -/
def sample_time (data : List SRow) : List SRow :=
  data.map fun r => { r with dependent := r.dependent - mean_time data r.year }

/-- Series `sample_twfe =
Dependent.subtract(mean_individual).subtract(mean_time).subtract(mean)`. -/
def sample_twfe (data : List SRow) : List SRow :=
  data.map fun r =>
    { r with dependent :=
        r.dependent - mean_individual data r.individual - mean_time data r.year -
          grand_mean data }

/-- Cross-individual mean of a derived series at a fixed year. -/
def cross_individual_mean (series : List SRow) (y : Nat) : ℚ :=
  mean_list ((series.filter fun r => r.year == y).map fun r => r.dependent)

/-- A concrete generator satisfying the numpy contract, used to instantiate
theorems: every draw returns the lower end of the requested range. -/
def loRNG : RNG where
  uniform1 := fun _ lo _ => lo
  uniformV := fun _ lo _ n => List.replicate n lo
  randintV := fun _ lo _ n => List.replicate n lo

/-- The driver's sample (2013-2022, treatment year 2017, fixed effects, noise
on), instantiated at `loRNG`. -/
def demoSample : Sample :=
  (Sample.make loRNG 2013 2022 (some 2017) .Fixed .TRUE).toOption.getD ⟨[], [], []⟩

def demoData : List SRow := demoSample.data

/-- A concrete individual used by witnesses. -/
def demoIndividual : Individual :=
  ⟨0, ⟨.A, .B, .TRUE⟩, .Fixed, .TRUE⟩

/-- A second concrete individual (different identifier and cluster). -/
def demoIndividual2 : Individual :=
  ⟨5, ⟨.B, .A, .FALSE⟩, .Fixed, .TRUE⟩

def demoRows : List Row :=
  (demoIndividual.time_series loRNG 2013 2017 none).toOption.getD []

def demoRows2 : List Row :=
  (demoIndividual2.time_series loRNG 2013 2017 none).toOption.getD []

end FixedEffects

/-! ### Theorems -/

namespace CommaRepair

theorem slice_self (s : List Char) (a : Nat) : slice s a a = [] := by
  simp [slice]

theorem slice_append (s : List Char) {a b c : Nat} (hab : a ≤ b) (hbc : b ≤ c) :
    slice s a c = slice s a b ++ slice s b c := by
  unfold slice
  have h1 : c - a = (b - a) + (c - b) := by omega
  rw [h1, List.take_add, List.drop_drop]
  have h2 : a + (b - a) = b := by omega
  rw [h2]

theorem slice_one {s : List Char} {p : Nat} (h : p < s.length) :
    slice s p (p + 1) = [s.getD p ' '] := by
  unfold slice
  have h1 : p + 1 - p = 1 := by omega
  rw [h1, List.drop_eq_getElem_cons h, List.getD_eq_getElem s ' ' h]
  rfl

/-- Every match ends at or after the position where it started. -/
theorem matchRE_le (r : RE) : ∀ (s : List Char) (pos : Nat), ∀ p ∈ matchRE r s pos, pos ≤ p.2 := by
  induction r with
  | anchorStart =>
    intro s pos p hp
    simp only [matchRE] at hp
    split at hp <;> simp_all
  | anchorEnd =>
    intro s pos p hp
    simp only [matchRE] at hp
    split at hp <;> simp_all
  | lit c =>
    intro s pos p hp
    simp only [matchRE] at hp
    split at hp <;> simp_all
  | starNot c =>
    intro s pos p hp
    simp only [matchRE, List.mem_map, List.mem_reverse, List.mem_range] at hp
    obtain ⟨i, -, rfl⟩ := hp
    simp
  | plusNot c =>
    intro s pos p hp
    simp only [matchRE, List.mem_map, List.mem_reverse, List.mem_range] at hp
    obtain ⟨i, -, rfl⟩ := hp
    simp
    omega
  | negLookahead c =>
    intro s pos p hp
    simp only [matchRE] at hp
    split at hp <;> simp_all
  | alt r1 r2 ih1 ih2 =>
    intro s pos p hp
    simp only [matchRE, List.mem_append] at hp
    rcases hp with hp | hp
    · exact ih1 s pos p hp
    · exact ih2 s pos p hp
  | seq r1 r2 ih1 ih2 =>
    intro s pos p hp
    simp only [matchRE, List.mem_flatMap, List.mem_map] at hp
    obtain ⟨a, ha, b, hb, rfl⟩ := hp
    have h1 := ih1 s pos a ha
    have h2 := ih2 s a.2 b hb
    simp only
    omega
  | group nm r ih =>
    intro s pos p hp
    simp only [matchRE, List.mem_map] at hp
    obtain ⟨a, ha, rfl⟩ := hp
    exact ih s pos a ha

/-- A groupless regex records no captures. -/
theorem noGroups_captures (r : RE) (hr : noGroups r = true) :
    ∀ (s : List Char) (pos : Nat), ∀ p ∈ matchRE r s pos, p.1 = [] := by
  induction r with
  | anchorStart =>
    intro s pos p hp
    simp only [matchRE] at hp
    split at hp <;> simp_all
  | anchorEnd =>
    intro s pos p hp
    simp only [matchRE] at hp
    split at hp <;> simp_all
  | lit c =>
    intro s pos p hp
    simp only [matchRE] at hp
    split at hp <;> simp_all
  | starNot c =>
    intro s pos p hp
    simp only [matchRE, List.mem_map, List.mem_reverse, List.mem_range] at hp
    obtain ⟨i, -, rfl⟩ := hp
    rfl
  | plusNot c =>
    intro s pos p hp
    simp only [matchRE, List.mem_map, List.mem_reverse, List.mem_range] at hp
    obtain ⟨i, -, rfl⟩ := hp
    rfl
  | negLookahead c =>
    intro s pos p hp
    simp only [matchRE] at hp
    split at hp <;> simp_all
  | alt r1 r2 ih1 ih2 =>
    intro s pos p hp
    simp only [noGroups, Bool.and_eq_true] at hr
    simp only [matchRE, List.mem_append] at hp
    rcases hp with hp | hp
    · exact ih1 hr.1 s pos p hp
    · exact ih2 hr.2 s pos p hp
  | seq r1 r2 ih1 ih2 =>
    intro s pos p hp
    simp only [noGroups, Bool.and_eq_true] at hr
    simp only [matchRE, List.mem_flatMap, List.mem_map] at hp
    obtain ⟨a, ha, b, hb, rfl⟩ := hp
    simp only
    rw [ih1 hr.1 s pos a ha, ih2 hr.2 s a.2 b hb]
    rfl
  | group nm r ih =>
    simp [noGroups] at hr

theorem matchRE_lit_inv {c : Char} {s : List Char} {pos : Nat} {p}
    (h : p ∈ matchRE (.lit c) s pos) :
    pos < s.length ∧ s.getD pos ' ' = c ∧ p = ([], pos + 1) := by
  simp only [matchRE] at h
  split at h
  · rename_i hc
    simp only [List.mem_singleton] at h
    exact ⟨hc.1, hc.2, h⟩
  · simp at h

theorem matchRE_neg_inv {c : Char} {s : List Char} {pos : Nat} {p}
    (h : p ∈ matchRE (.negLookahead c) s pos) : p = ([], pos) := by
  simp only [matchRE] at h
  split at h <;> simp_all

theorem matchRE_group_inv {nm : String} {r : RE} {s : List Char} {pos : Nat} {p}
    (h : p ∈ matchRE (.group nm r) s pos) :
    ∃ q ∈ matchRE r s pos, p = ((nm, slice s pos q.2) :: q.1, q.2) := by
  simp only [matchRE, List.mem_map] at h
  obtain ⟨q, hq, rfl⟩ := h
  exact ⟨q, hq, rfl⟩

theorem matchRE_seq_inv {r1 r2 : RE} {s : List Char} {pos : Nat} {p}
    (h : p ∈ matchRE (.seq r1 r2) s pos) :
    ∃ q1 ∈ matchRE r1 s pos, ∃ q2 ∈ matchRE r2 s q1.2, p = (q1.1 ++ q2.1, q2.2) := by
  simp only [matchRE, List.mem_flatMap, List.mem_map] at h
  obtain ⟨a, ha, b, hb, rfl⟩ := h
  exact ⟨a, ha, b, hb, rfl⟩

end CommaRepair

namespace CommaRepair

/-- The repair pattern cannot match at or beyond the end of the input (its
`innerQuote1` literal must consume a character). -/
theorem matchRE_pattern_nil_of_ge {s : List Char} {pos : Nat} (h : s.length ≤ pos) :
    matchRE pattern s pos = [] := by
  have h2 : ∀ q : Nat, s.length ≤ q →
      matchRE (RE.seq patIQ1 (.seq (.negLookahead ',') (.seq patKeep2 (.seq patIQ2 patKeep3))))
        s q = [] := by
    intro q hq
    have hlit : matchRE (RE.lit '"') s q = [] := by
      simp only [matchRE]
      rw [if_neg]
      rintro ⟨h1, -⟩
      omega
    have hiq : matchRE patIQ1 s q = [] := by
      show (matchRE (RE.lit '"') s q).map _ = []
      rw [hlit]
      rfl
    show (matchRE patIQ1 s q).flatMap _ = []
    rw [hiq]
    rfl
  show (matchRE patKeep1 s pos).flatMap _ = []
  apply List.flatMap_eq_nil_iff.mpr
  intro p hp
  have hle := matchRE_le _ s pos p hp
  rw [h2 p.2 (by omega)]
  rfl

/-- If the pattern matches nowhere in `s`, the substitution copies `s`
unchanged from any starting position. -/
theorem subAux_eq_of_no_match {s : List Char}
    (hnm : ∀ q, q < s.length → matchRE pattern s q = []) :
    ∀ fuel pos, s.length ≤ fuel + pos → subAux pattern repl s fuel pos = s.drop pos := by
  intro fuel
  induction fuel with
  | zero => intro pos _; rfl
  | succ n ih =>
    intro pos hlen
    by_cases hp : pos < s.length
    · have hm : matchRE pattern s pos = [] := hnm pos hp
      simp only [subAux, if_pos hp, hm, List.head?]
      rw [ih (pos + 1) (by omega), List.drop_eq_getElem_cons hp,
        List.getD_eq_getElem s ' ' hp]
    · have hm : matchRE pattern s pos = [] := matchRE_pattern_nil_of_ge (by omega)
      simp only [subAux, if_neg hp, hm, List.head?]
      rw [List.drop_eq_nil_of_le (by omega)]

end CommaRepair

namespace CommaRepair

theorem matchRE_seq_inv2 {r1 r2 : RE} {s : List Char} {pos : Nat}
    {g : List (String × List Char)} {e : Nat} (h : (g, e) ∈ matchRE (.seq r1 r2) s pos) :
    ∃ g1 e1 g2, (g1, e1) ∈ matchRE r1 s pos ∧ (g2, e) ∈ matchRE r2 s e1 ∧ g = g1 ++ g2 := by
  obtain ⟨q1, hq1, q2, hq2, hpe⟩ := matchRE_seq_inv h
  injection hpe with h1 h2
  refine ⟨q1.1, q1.2, q2.1, by simpa using hq1, ?_, h1⟩
  rw [h2]
  simpa using hq2

theorem matchRE_groupNG_inv {nm : String} {r : RE} {s : List Char} {pos : Nat} {p}
    (hng : noGroups r = true) (h : p ∈ matchRE (.group nm r) s pos) :
    ∃ e1, pos ≤ e1 ∧ p = ([(nm, slice s pos e1)], e1) := by
  obtain ⟨q, hq, rfl⟩ := matchRE_group_inv h
  have h1 := noGroups_captures r hng s pos q hq
  have h2 := matchRE_le r s pos q hq
  exact ⟨q.2, h2, by rw [h1]⟩

theorem matchRE_groupLit_inv {nm : String} {c : Char} {s : List Char} {pos : Nat} {p}
    (h : p ∈ matchRE (.group nm (.lit c)) s pos) :
    pos < s.length ∧ s.getD pos ' ' = c ∧ p = ([(nm, slice s pos (pos + 1))], pos + 1) := by
  obtain ⟨q, hq, rfl⟩ := matchRE_group_inv h
  obtain ⟨h1, h2, h3⟩ := matchRE_lit_inv hq
  subst h3
  exact ⟨h1, h2, rfl⟩

/-- C7: the primary repair substitution is a frame-preserving rewrite: every
match of the pattern decomposes the matched span as
`keep1 ++ " ++ keep2 ++ " ++ keep3`, and the replacement emitted for it is
`keep1 ++ ' ++ keep2 ++ ' ++ keep3` — only the single characters captured by
`innerQuote1` and `innerQuote2` (both a double quote) change, each into a
single quote; and an input on which the pattern matches nowhere is returned
entirely unchanged. -/
theorem repl_frame_property :
    (∀ (s : List Char) (pos : Nat) (g : List (String × List Char)) (e : Nat),
        (g, e) ∈ matchRE pattern s pos →
        g.map Prod.fst = ["keep1", "innerQuote1", "keep2", "innerQuote2", "keep3"] ∧
        (g.getD 1 ("", [])).2 = ['"'] ∧ (g.getD 3 ("", [])).2 = ['"'] ∧
        slice s pos e =
          (g.getD 0 ("", [])).2 ++ '"' :: ((g.getD 2 ("", [])).2 ++ '"' :: (g.getD 4 ("", [])).2) ∧
        repl g =
          (g.getD 0 ("", [])).2 ++ '\'' :: ((g.getD 2 ("", [])).2 ++ '\'' :: (g.getD 4 ("", [])).2)) ∧
    (∀ s : List Char,
        ((List.range s.length).all fun pos => (matchRE pattern s pos).isEmpty) = true →
        re_sub pattern repl s = s) := by
  constructor
  · intro s pos g e h
    obtain ⟨g1, e1, g2, hk1, hrest, hg⟩ := matchRE_seq_inv2 h
    obtain ⟨ek, hkle, hk1eq⟩ := matchRE_groupNG_inv (by rfl) hk1
    injection hk1eq with hg1 he1
    subst hg1 he1
    obtain ⟨g3, e3, g4, hi1, hrest2, hg2⟩ := matchRE_seq_inv2 hrest
    obtain ⟨hlen1, hch1, hi1eq⟩ := matchRE_groupLit_inv hi1
    injection hi1eq with hg3 he3
    subst hg3 he3
    obtain ⟨g5, e5, g6, hnla, hrest3, hg4⟩ := matchRE_seq_inv2 hrest2
    have hnlaeq := matchRE_neg_inv hnla
    injection hnlaeq with hg5 he5
    subst hg5 he5
    obtain ⟨g7, e7, g8, hk2, hrest4, hg6⟩ := matchRE_seq_inv2 hrest3
    obtain ⟨ek2, hk2le, hk2eq⟩ := matchRE_groupNG_inv (by rfl) hk2
    injection hk2eq with hg7 he7
    subst hg7 he7
    obtain ⟨g9, e9, g10, hi2, hrest5, hg8⟩ := matchRE_seq_inv2 hrest4
    obtain ⟨hlen2, hch2, hi2eq⟩ := matchRE_groupLit_inv hi2
    injection hi2eq with hg9 he9
    subst hg9 he9
    obtain ⟨ek3, hk3le, hk3eq⟩ := matchRE_groupNG_inv (by rfl) hrest5
    injection hk3eq with hg10 he10
    subst hg10 he10
    subst hg8 hg6 hg4 hg2 hg
    have hiq1 : slice s e1 (e1 + 1) = ['"'] := by rw [slice_one hlen1, hch1]
    have hiq2 : slice s e7 (e7 + 1) = ['"'] := by rw [slice_one hlen2, hch2]
    have hsl : slice s pos e =
        slice s pos e1 ++ '"' :: (slice s (e1 + 1) e7 ++ '"' :: slice s (e7 + 1) e) := by
      rw [slice_append s hkle (by omega : e1 ≤ e),
        slice_append s (by omega : e1 ≤ e1 + 1) (by omega : e1 + 1 ≤ e),
        slice_append s hk2le (by omega : e7 ≤ e),
        slice_append s (by omega : e7 ≤ e7 + 1) hk3le, hiq1, hiq2]
      simp
    refine ⟨by simp, by simp [hiq1], by simp [hiq2], by simpa using hsl, ?_⟩
    simp [repl, List.lookup, deal_with_inner_quotes, hiq1, hiq2]
  · intro s hall
    have hnm : ∀ q, q < s.length → matchRE pattern s q = [] := by
      intro q hq
      have := List.all_eq_true.mp hall q (List.mem_range.mpr hq)
      exact List.isEmpty_iff.mp this
    have := subAux_eq_of_no_match hnm (s.length + 1) 0 (by omega)
    simpa [re_sub] using this

end CommaRepair

namespace CommaRepair

/-- Witness for the frame property: the first part applied to the match of the
pattern on `,"a"b"c",` (captures `keep1 = ,"a`, `keep2 = b`, `keep3 = c",`),
the second to the match-free input `abc`. -/
theorem repl_frame_property_witness :
    (demoMatchCaps.map Prod.fst = ["keep1", "innerQuote1", "keep2", "innerQuote2", "keep3"] ∧
      (demoMatchCaps.getD 1 ("", [])).2 = ['"'] ∧ (demoMatchCaps.getD 3 ("", [])).2 = ['"'] ∧
      slice demoMatchInput 0 9 =
        (demoMatchCaps.getD 0 ("", [])).2 ++
          '"' :: ((demoMatchCaps.getD 2 ("", [])).2 ++ '"' :: (demoMatchCaps.getD 4 ("", [])).2) ∧
      repl demoMatchCaps =
        (demoMatchCaps.getD 0 ("", [])).2 ++
          '\'' :: ((demoMatchCaps.getD 2 ("", [])).2 ++
            '\'' :: (demoMatchCaps.getD 4 ("", [])).2)) ∧
    re_sub pattern repl ("abc".toList) = "abc".toList :=
  ⟨repl_frame_property.1 demoMatchInput 0 demoMatchCaps 9 (by decide),
    repl_frame_property.2 ("abc".toList) (by decide)⟩

set_option maxRecDepth 8000 in
/-- C1: repairing the documented malformed sample and then parsing it succeeds
and yields the table with header `column1, column2, column3` and exactly two
data rows of three columns each; the second data row is
`(2, "text quoting 'a sentence, words, and more' in a single cell", 2)` — the
embedded double quotes became single quotes, every comma inside the field is
preserved as part of the one quoted value, and the outer numeric fields parse
as the numbers 2 and 2. -/
theorem repair_and_parse_sample :
    read_csv sample_fixed =
      .ok ⟨["column1", " column2", " column3"],
        [[.int 1, .str "text without quote, but comma", .int 1],
          [.int 2, .str "text quoting 'a sentence, words, and more' in a single cell",
            .int 2]]⟩ := by
  decide

set_option maxRecDepth 8000 in
/-- C5: parsing the malformed sample directly fails with a `ParserError`
(pandas: expected 3 fields, saw 5), the failure class is the one the driver's
`except pandas.errors.ParserError` clause catches, and the driver therefore
prints the diagnostic `Parser unable to read file` instead of propagating. -/
theorem attempt_parse_sample_fails :
    read_csv sample = .error (.badLine 3 5) ∧
    (ReadCsvError.badLine 3 5).isParserError = true ∧
    parser_message sample = some "Parser unable to read file" := by
  refine ⟨by decide, by decide, by decide⟩

set_option maxRecDepth 8000 in
/-- C6: the repair is idempotent on the repaired sample: substituting a second
time leaves `sample_fixed` unchanged, and indeed the interior-quote pattern has
no remaining match at any position of the repaired output. -/
theorem repair_idempotent_on_sample :
    re_sub pattern repl sample_fixed = sample_fixed ∧
    ((List.range sample_fixed.length).all fun pos =>
      (matchRE pattern sample_fixed pos).isEmpty) = true := by
  refine ⟨by decide, by decide⟩

end CommaRepair

namespace FixedEffects

theorem except_bind_ok {ε α β : Type} (a : α) (f : α → Except ε β) :
    (Except.ok a >>= f : Except ε β) = f a := rfl

theorem except_bind_error {ε α β : Type} (e : ε) (f : α → Except ε β) :
    (Except.error e >>= f : Except ε β) = .error e := rfl

theorem except_pure_eq {ε α : Type} (a : α) : (pure a : Except ε α) = .ok a := rfl

theorem except_ok_of_bind {ε α β : Type} {x : Except ε α} {f : α → Except ε β} {b : β}
    (h : (x >>= f) = .ok b) : ∃ a, x = .ok a ∧ f a = .ok b := by
  cases x with
  | error e => rw [except_bind_error] at h; exact absurd h (by simp)
  | ok a =>
    refine ⟨a, rfl, ?_⟩
    rw [← except_bind_ok a f]
    exact h

theorem getD_map_of_lt {α β : Type} (f : α → β) (l : List α) {k : Nat} (hk : k < l.length)
    (da : α) (db : β) : (l.map f).getD k db = f (l.getD k da) := by
  rw [List.getD_eq_getElem _ _ (by simpa using hk), List.getElem_map,
    List.getD_eq_getElem _ _ hk]

theorem getD_zipWith {α β γ : Type} (f : α → β → γ) (a : List α) (b : List β) {k : Nat}
    (da : α) (db : β) (dg : γ) (ha : k < a.length) (hb : k < b.length) :
    (List.zipWith f a b).getD k dg = f (a.getD k da) (b.getD k db) := by
  rw [List.getD_eq_getElem _ _ (by rw [List.length_zipWith]; omega),
    List.getElem_zipWith, List.getD_eq_getElem _ _ ha, List.getD_eq_getElem _ _ hb]

theorem getD_range' {s n k : Nat} (hk : k < n) (d : Nat) :
    (List.range' s n).getD k d = s + k := by
  rw [List.getD_eq_getElem _ _ (by rw [List.length_range']; omega), List.getElem_range']
  omega

/-- The vector `_get_time_fixed_effect` returns has the requested length. -/
theorem length_get_time_fixed_effect (g : RNG) (hg : g.Spec) (ind : Individual) (size : Nat) :
    (ind.get_time_fixed_effect g size).length = size := by
  unfold Individual.get_time_fixed_effect
  rw [List.length_reverse, (List.perm_insertionSort _ _).length_eq, hg.uniformV_length]

/-- The lower-end generator satisfies the numpy contract. -/
theorem loRNG_spec : RNG.Spec loRNG := by
  constructor
  · intro s lo hi h
    exact ⟨le_refl lo, h⟩
  · intro s lo hi n
    simp [loRNG]
  · intro s lo hi n h x hx
    rcases List.eq_of_mem_replicate hx with rfl
    exact ⟨le_refl x, h⟩
  · intro s lo hi n
    simp [loRNG]
  · intro s lo hi n h x hx
    rcases List.eq_of_mem_replicate hx with rfl
    exact ⟨le_refl x, h⟩

end FixedEffects

namespace FixedEffects

/-- Under `Fixed` effects, `time_series` succeeds and its rows take the closed
form `tsRow`. -/
theorem time_series_fixed (g : RNG) (hg : g.Spec) (ind : Individual) (sy ey : Nat)
    (t : Option Nat) (heff : ind.effects_type = .Fixed) :
    ind.time_series g sy ey t = .ok ((List.range (ey - sy)).map (tsRow g ind sy ey t)) := by
  have hfetlen : (ind.get_time_fixed_effect g (ey - sy)).length = ey - sy :=
    length_get_time_fixed_effect g hg ind _
  have htreatlen : ((List.range' sy (ey - sy)).map fun y =>
      decide (t.getD (ey - (ey - sy) / 2) ≤ y) &&
        decide (ind.cluster.property_dummy.value = 1)).length = ey - sy := by
    simp
  cases hnz : ind.noise.value with
  | false =>
    simp only [Individual.time_series, Individual.slope, Individual.intercept, heff, hnz,
      except_bind_ok, except_pure_eq, List.length_range', Bool.false_eq_true, if_false]
    refine congrArg Except.ok (List.map_congr_left ?_)
    intro k hk
    rw [List.mem_range] at hk
    unfold tsRow
    rw [Row.mk.injEq]
    refine ⟨getD_range' hk 0, rfl, rfl, rfl, ?_, ?_, rfl, rfl, rfl, rfl, ?_⟩
    · rw [getD_map_of_lt _ _ (by simp; omega) 0, getD_range' hk]
    · rw [getD_map_of_lt _ _ (by simp; omega) 0, getD_range' hk]
    · rw [getD_zipWith _ _ _ false 0 0 (by rw [htreatlen]; omega) (by rw [hfetlen]; omega),
        getD_map_of_lt _ _ (by simp; omega) 0, getD_range' hk, hnz]
      simp
  | true =>
    simp only [Individual.time_series, Individual.slope, Individual.intercept,
      Individual.get_noise, heff, hnz, except_bind_ok, except_pure_eq, List.length_range',
      if_true, one_mul]
    refine congrArg Except.ok (List.map_congr_left ?_)
    intro k hk
    rw [List.mem_range] at hk
    unfold tsRow
    rw [Row.mk.injEq]
    refine ⟨getD_range' hk 0, rfl, rfl, rfl, ?_, ?_, rfl, rfl, rfl, rfl, ?_⟩
    · rw [getD_map_of_lt _ _ (by simp; omega) 0, getD_range' hk]
    · rw [getD_map_of_lt _ _ (by simp; omega) 0, getD_range' hk]
    · rw [getD_zipWith _ _ _ 0 0 0
          (by rw [List.length_zipWith, htreatlen, hfetlen]; omega)
          (by rw [hg.uniformV_length]; omega),
        getD_zipWith _ _ _ false 0 0 (by rw [htreatlen]; omega) (by rw [hfetlen]; omega),
        getD_map_of_lt _ _ (by simp; omega) 0, getD_range' hk, hnz]
      simp

end FixedEffects

namespace FixedEffects

/-- A successful `time_series` forces `Fixed` effects and the closed row form. -/
theorem time_series_ok_eq (g : RNG) (hg : g.Spec) {ind : Individual} {sy ey : Nat}
    {t : Option Nat} {rows : List Row} (h : ind.time_series g sy ey t = .ok rows) :
    ind.effects_type = .Fixed ∧ rows = (List.range (ey - sy)).map (tsRow g ind sy ey t) := by
  cases heff : ind.effects_type with
  | Fixed =>
    refine ⟨rfl, ?_⟩
    rw [time_series_fixed g hg ind sy ey t heff] at h
    injection h with h
    exact h.symm
  | Random =>
    exfalso
    simp only [Individual.time_series, Individual.slope, heff, except_bind_error] at h
    exact absurd h (by simp)

/-- C10: under `Fixed` effects `slope` is exactly `1.0` and `intercept` is the
cluster's alpha numeric value, which is `2` or `3`; under `Random` effects both
accessors fail with the not-implemented error, which propagates (the `Except`
value is the error itself — there is no fallback computation). -/
theorem slope_intercept_spec :
    ∀ ind : Individual,
      (ind.effects_type = .Fixed →
        ind.slope = .ok 1 ∧ ind.intercept = .ok ind.cluster.property_alpha.value ∧
          (ind.cluster.property_alpha.value = 2 ∨ ind.cluster.property_alpha.value = 3)) ∧
      (ind.effects_type = .Random →
        ind.slope = .error .notImplemented ∧ ind.intercept = .error .notImplemented) := by
  intro ind
  constructor
  · intro h
    refine ⟨by simp [Individual.slope, h], by simp [Individual.intercept, h], ?_⟩
    cases ind.cluster.property_alpha
    · exact Or.inl rfl
    · exact Or.inr rfl
  · intro h
    exact ⟨by simp [Individual.slope, h], by simp [Individual.intercept, h]⟩

/-- Witness for C10 at two concrete individuals. -/
theorem slope_intercept_spec_witness :
    demoIndividual.slope = .ok 1 ∧
    (Individual.mk 1 ⟨.A, .B, .TRUE⟩ .Random .FALSE).slope = .error .notImplemented :=
  ⟨((slope_intercept_spec demoIndividual).1 rfl).1,
    ((slope_intercept_spec ⟨1, ⟨.A, .B, .TRUE⟩, .Random, .FALSE⟩).2 rfl).1⟩

end FixedEffects

namespace FixedEffects

/-- The content of `_init_clusters` under the numpy contract: three repeat
counts in `[3, 9]`, sorted ascending, applied positionally to the seed
clusters in their original order; the pool length is their sum. -/
theorem repeats_spec (g : RNG) (hg : g.Spec) :
    ∃ r1 r2 r3, Sample.repeats g = [r1, r2, r3] ∧
      (3 ≤ r1 ∧ r1 ≤ 9) ∧ (3 ≤ r2 ∧ r2 ≤ 9) ∧ (3 ≤ r3 ∧ r3 ≤ 9) ∧
      r1 ≤ r2 ∧ r2 ≤ r3 ∧
      Sample.init_clusters g =
        List.replicate r1 ⟨.A, .B, .TRUE⟩ ++ List.replicate r2 ⟨.A, .A, .TRUE⟩ ++
          List.replicate r3 ⟨.B, .A, .FALSE⟩ ∧
      (Sample.init_clusters g).length = r1 + r2 + r3 := by
  have hperm := List.perm_insertionSort (α := Nat) (· ≤ ·) (g.randintV 10 3 10 3)
  have hslen : (Sample.repeats g).length = 3 := by
    rw [Sample.repeats, hperm.length_eq, hg.randintV_length]
  have hsorted : (Sample.repeats g).Sorted (· ≤ ·) :=
    List.sorted_insertionSort (· ≤ ·) (g.randintV 10 3 10 3)
  have hmem : ∀ x ∈ Sample.repeats g, 3 ≤ x ∧ x ≤ 9 := by
    intro x hx
    have hx' : x ∈ g.randintV 10 3 10 3 := hperm.mem_iff.mp hx
    have := hg.randintV_mem 10 3 10 3 (by omega) x hx'
    omega
  obtain ⟨r1, r2, r3, heq⟩ := List.length_eq_three.mp hslen
  rw [heq] at hsorted hmem
  simp only [List.sorted_cons, List.mem_cons, List.not_mem_nil, or_false,
    forall_eq_or_imp, forall_eq] at hsorted
  have hpool : Sample.init_clusters g =
      List.replicate r1 (⟨.A, .B, .TRUE⟩ : Cluster) ++
        List.replicate r2 (⟨.A, .A, .TRUE⟩ : Cluster) ++
        List.replicate r3 (⟨.B, .A, .FALSE⟩ : Cluster) := by
    rw [Sample.init_clusters, heq]
    simp [seed_clusters, List.append_assoc]
  refine ⟨r1, r2, r3, heq, hmem r1 (by simp), hmem r2 (by simp), hmem r3 (by simp),
    hsorted.1.1, hsorted.2.1, hpool, ?_⟩
  rw [hpool]
  simp
  omega

end FixedEffects

namespace FixedEffects

/-- C9: `_init_clusters` reseeds with 10 and draws three repeat counts, each in
`[3, 9]`; after the in-place ascending sort the counts are applied positionally
to the three seed clusters in their original order, and the pool length is the
sum of the counts.  The pool is a pure function of the generator, so the same
seeding discipline reproduces the same length on every run. -/
theorem init_clusters_spec (g : RNG) (hg : g.Spec) :
    ∃ r1 r2 r3, Sample.repeats g = [r1, r2, r3] ∧
      (3 ≤ r1 ∧ r1 ≤ 9) ∧ (3 ≤ r2 ∧ r2 ≤ 9) ∧ (3 ≤ r3 ∧ r3 ≤ 9) ∧
      r1 ≤ r2 ∧ r2 ≤ r3 ∧
      Sample.init_clusters g =
        List.replicate r1 ⟨.A, .B, .TRUE⟩ ++ List.replicate r2 ⟨.A, .A, .TRUE⟩ ++
          List.replicate r3 ⟨.B, .A, .FALSE⟩ ∧
      (Sample.init_clusters g).length = r1 + r2 + r3 :=
  repeats_spec g hg

/-- Witness for C9 at the lower-end generator: counts `[3, 3, 3]`, pool of
length 9. -/
theorem init_clusters_spec_witness :
    Sample.repeats loRNG = [3, 3, 3] ∧ (Sample.init_clusters loRNG).length = 9 := by
  obtain ⟨r1, r2, r3, heq, hb1, hb2, hb3, h12, h23, hpool, hlen⟩ :=
    init_clusters_spec loRNG loRNG_spec
  have hval : Sample.repeats loRNG = [3, 3, 3] := by decide
  refine ⟨hval, ?_⟩
  rw [hval] at heq
  injection heq with h1 heq
  injection heq with h2 heq
  injection heq with h3 heq
  rw [hlen, ← h1, ← h2, ← h3]

/-- C8: the `FixedEffectTime` column is identical across any two individuals
over the same year range (the draw reseeds with `0` regardless of the
identifier), and within each individual's series the column is sorted in
descending order across years. -/
theorem time_fixed_effect_shared_and_descending (g : RNG) (hg : g.Spec)
    (ind1 ind2 : Individual) (sy ey : Nat) (t : Option Nat) (rows1 rows2 : List Row)
    (h1 : ind1.time_series g sy ey t = .ok rows1)
    (h2 : ind2.time_series g sy ey t = .ok rows2) :
    rows1.map (fun r => r.fixedEffectTime) = rows2.map (fun r => r.fixedEffectTime) ∧
    (rows1.map (fun r => r.fixedEffectTime)).Sorted (· ≥ ·) := by
  obtain ⟨-, hr1⟩ := time_series_ok_eq g hg h1
  obtain ⟨-, hr2⟩ := time_series_ok_eq g hg h2
  subst hr1 hr2
  have hcol : ∀ ind : Individual,
      ((List.range (ey - sy)).map (tsRow g ind sy ey t)).map (fun r => r.fixedEffectTime) =
        ind.get_time_fixed_effect g (ey - sy) := by
    intro ind
    rw [List.map_map]
    have hlen := length_get_time_fixed_effect g hg ind (ey - sy)
    refine List.ext_getElem (by simpa using hlen.symm) ?_
    intro i hi1 hi2
    simp only [List.getElem_map, List.getElem_range, Function.comp_apply]
    rw [tsRow]
    exact (List.getD_eq_getElem _ _ hi2).symm ▸ rfl
  rw [hcol ind1, hcol ind2]
  constructor
  · rfl
  · unfold Individual.get_time_fixed_effect
    rw [List.Sorted, List.pairwise_reverse]
    exact List.sorted_insertionSort (· ≤ ·) _
  
end FixedEffects

namespace FixedEffects

/-- Witness for C8: two concrete individuals with different identifiers and
clusters over 2013-2017. -/
theorem time_fixed_effect_shared_witness :
    demoRows.map (fun r => r.fixedEffectTime) = demoRows2.map (fun r => r.fixedEffectTime) ∧
    (demoRows.map (fun r => r.fixedEffectTime)).Sorted (· ≥ ·) :=
  time_fixed_effect_shared_and_descending loRNG loRNG_spec demoIndividual demoIndividual2
    2013 2017 none demoRows demoRows2 (by with_unfolding_all decide)
    (by with_unfolding_all decide)

/-- C2: in every row of a successfully built time series, `Dependent` equals
`Slope * Treatment + Intercept + FixedEffectIndividual + FixedEffectTime` (the
boolean treatment coerced to 0/1), plus — exactly when the noise flag is on —
the `k`-th entry of the noise vector drawn uniformly from
`[-slope*0.1, slope*0.1]` after reseeding with `2 * identifier`; with noise
off no noise term is added. -/
theorem dependent_formula (g : RNG) (hg : g.Spec) (ind : Individual) (sy ey : Nat)
    (t : Option Nat) (rows : List Row) (h : ind.time_series g sy ey t = .ok rows)
    (k : Nat) (hk : k < rows.length) :
    (rows.getD k defaultRow).dependent =
      (rows.getD k defaultRow).slope *
          (if (rows.getD k defaultRow).treatment then (1 : ℚ) else 0) +
        (rows.getD k defaultRow).intercept + (rows.getD k defaultRow).fixedEffectIndividual +
        (rows.getD k defaultRow).fixedEffectTime +
        (if ind.noise.value then
            (g.uniformV (2 * ind.identifier)
              (-((rows.getD k defaultRow).slope * (1 / 10)))
              ((rows.getD k defaultRow).slope * (1 / 10)) rows.length).getD k 0
          else 0) := by
  obtain ⟨-, hr⟩ := time_series_ok_eq g hg h
  subst hr
  have hk' : k < ey - sy := by simpa using hk
  rw [getD_map_of_lt _ _ (by simpa using hk') 0]
  rw [show (List.range (ey - sy)).getD k 0 = k from by
    rw [List.getD_eq_getElem _ _ (by simpa using hk'), List.getElem_range]]
  simp only [tsRow, List.length_map, List.length_range, one_mul]

end FixedEffects

namespace FixedEffects

theorem mapM_ok_mem {ε α β : Type} {f : α → Except ε β} :
    ∀ {l : List α} {res : List β}, l.mapM f = .ok res → ∀ y ∈ res, ∃ x ∈ l, f x = .ok y := by
  intro l
  induction l with
  | nil =>
    intro res h y hy
    rw [← List.mapM'_eq_mapM] at h
    simp only [List.mapM', except_pure_eq] at h
    injection h with h
    subst h
    cases hy
  | cons a as ih =>
    intro res h y hy
    rw [← List.mapM'_eq_mapM] at h
    simp only [List.mapM'] at h
    obtain ⟨b, hfa, hrest⟩ := except_ok_of_bind h
    obtain ⟨ys, hys, hpure⟩ := except_ok_of_bind hrest
    rw [except_pure_eq] at hpure
    injection hpure with hpure
    subst hpure
    rcases List.mem_cons.mp hy with rfl | hy'
    · exact ⟨a, by simp, hfa⟩
    · have hys' : as.mapM f = .ok ys := by rw [← List.mapM'_eq_mapM]; exact hys
      obtain ⟨x, hx, hfx⟩ := ih hys' y hy'
      exact ⟨x, by simp [hx], hfx⟩

theorem mapM_eq_ok {ε α β : Type} {f : α → Except ε β} {fok : α → β} :
    ∀ {l : List α}, (∀ x ∈ l, f x = .ok (fok x)) → l.mapM f = .ok (l.map fok) := by
  intro l
  induction l with
  | nil => intro _; rfl
  | cons a as ih =>
    intro h
    rw [← List.mapM'_eq_mapM]
    simp only [List.mapM', h a (by simp), except_bind_ok]
    rw [List.mapM'_eq_mapM, ih (fun x hx => h x (by simp [hx])), except_bind_ok, except_pure_eq,
      List.map_cons]

/-- Every row of a successfully assembled panel comes from some individual's
time series, tagged with that individual's identifier. -/
theorem build_data_ok_mem (g : RNG) {inds : List Individual} {sy ey : Nat} {d : List SRow}
    (h : Sample.build_data g inds sy ey = .ok d) :
    ∀ r ∈ d, ∃ ind ∈ inds, ∃ rows, ind.time_series g sy ey none = .ok rows ∧
      r.toRow ∈ rows ∧ r.individual = ind.identifier := by
  intro r hr
  unfold Sample.build_data at h
  obtain ⟨tss, hm, hp⟩ := except_ok_of_bind h
  rw [except_pure_eq] at hp
  injection hp with hp
  subst hp
  obtain ⟨block, hblock, hrblock⟩ := List.mem_flatten.mp hr
  obtain ⟨ind, hind, hfok⟩ := mapM_ok_mem hm block hblock
  obtain ⟨rows, hts, hpure⟩ := except_ok_of_bind hfok
  rw [except_pure_eq] at hpure
  injection hpure with hpure
  subst hpure
  obtain ⟨r0, hr0, hr0eq⟩ := List.mem_map.mp hrblock
  subst hr0eq
  exact ⟨ind, hind, rows, hts, hr0, rfl⟩

/-- C4: the assembled panel is independent of the `treatment_year` passed to
the `Sample` constructor — `_init_sample` never forwards it to `time_series` —
so two constructions differing only in that argument are identical, and in the
driver's 2013-2022 run every row's `Post` indicator uses the default effective
treatment year 2018 (not the configured 2017). -/
theorem sample_data_ignores_treatment_year :
    (∀ (g : RNG) (sy ey : Nat) (t1 t2 : Option Nat) (eff : Effects) (nz : Noise),
      Sample.make g sy ey t1 eff nz = Sample.make g sy ey t2 eff nz) ∧
    (∀ g : RNG, g.Spec → ∀ (t : Option Nat) (eff : Effects) (nz : Noise) (smp : Sample),
      Sample.make g 2013 2022 t eff nz = .ok smp →
      ∀ r ∈ smp.data, r.post = decide (2018 ≤ r.year)) := by
  constructor
  · intro g sy ey t1 t2 eff nz
    rfl
  · intro g hg t eff nz smp h r hr
    simp only [Sample.make] at h
    obtain ⟨d, hbd, hp⟩ := except_ok_of_bind h
    rw [except_pure_eq] at hp
    injection hp with hp
    subst hp
    obtain ⟨ind, -, rows, hts, hrm, -⟩ := build_data_ok_mem g hbd r hr
    obtain ⟨-, hrows⟩ := time_series_ok_eq g hg hts
    subst hrows
    obtain ⟨k, -, hrk⟩ := List.mem_map.mp hrm
    show r.toRow.post = decide (2018 ≤ r.toRow.year)
    rw [← hrk]
    norm_num [tsRow]

/-- Witness for C4 at the lower-end generator and treatment years 2017 vs
2000. -/
theorem sample_data_ignores_treatment_year_witness :
    Sample.make loRNG 2013 2022 (some 2017) .Fixed .TRUE =
      Sample.make loRNG 2013 2022 (some 2000) .Fixed .TRUE ∧
    (demoData.getD 0 defaultSRow).post =
      decide (2018 ≤ (demoData.getD 0 defaultSRow).year) :=
  ⟨sample_data_ignores_treatment_year.1 loRNG 2013 2022 (some 2017) (some 2000) .Fixed .TRUE,
    sample_data_ignores_treatment_year.2 loRNG loRNG_spec (some 2017) .Fixed .TRUE demoSample
      (by with_unfolding_all decide) _ (by with_unfolding_all decide)⟩

/-- Witness for C2: the first row of a concrete series with noise enabled. -/
theorem dependent_formula_witness :
    0 < demoRows.length ∧
    (demoRows.getD 0 defaultRow).dependent =
      (demoRows.getD 0 defaultRow).slope *
          (if (demoRows.getD 0 defaultRow).treatment then (1 : ℚ) else 0) +
        (demoRows.getD 0 defaultRow).intercept +
        (demoRows.getD 0 defaultRow).fixedEffectIndividual +
        (demoRows.getD 0 defaultRow).fixedEffectTime +
        (if demoIndividual.noise.value then
            (loRNG.uniformV (2 * demoIndividual.identifier)
              (-((demoRows.getD 0 defaultRow).slope * (1 / 10)))
              ((demoRows.getD 0 defaultRow).slope * (1 / 10)) demoRows.length).getD 0 0
          else 0) :=
  ⟨by with_unfolding_all decide,
    dependent_formula loRNG loRNG_spec demoIndividual 2013 2017 none demoRows
      (by with_unfolding_all decide) 0 (by with_unfolding_all decide)⟩

/-- C3 counterexample: for the driver's sample built with the lower-end
generator, at year 2013 the cross-individual mean of the two-way-demeaned
series is minus twice the grand mean, not the time-demeaned per-year mean
minus one grand mean, so the claimed identity fails (the two sides differ by
the grand mean, about 0.53 here — far beyond floating-point tolerance). -/
theorem twfe_crossmean_claim_cex :
    ¬ (cross_individual_mean (sample_twfe demoData) 2013 =
        cross_individual_mean (sample_time demoData) 2013 - grand_mean demoData) := by
  with_unfolding_all decide

end FixedEffects

namespace FixedEffects

theorem sum_map_sub {α : Type} (l : List α) (f h : α → ℚ) :
    (l.map fun x => f x - h x).sum = (l.map f).sum - (l.map h).sum := by
  induction l with
  | nil => simp
  | cons a as ih =>
    simp only [List.map_cons, List.sum_cons, ih]
    ring

theorem sum_map_div {α : Type} (l : List α) (f : α → ℚ) (c : ℚ) :
    (l.map fun x => f x / c).sum = (l.map f).sum / c := by
  induction l with
  | nil => simp
  | cons a as ih =>
    simp only [List.map_cons, List.sum_cons, ih, add_div]

theorem sum_map_const {α : Type} (l : List α) (c : ℚ) :
    (l.map fun _ => c).sum = l.length * c := by
  rw [List.map_const', List.sum_replicate, nsmul_eq_mul]

theorem filter_beq_range {j n : Nat} (h : j < n) :
    (List.range n).filter (fun k => k == j) = [j] := by
  have haux : ∀ m : Nat, (List.range m).filter (fun k => k == j) =
      if j < m then [j] else [] := by
    intro m
    induction m with
    | zero => simp
    | succ i ih =>
      rw [List.range_succ, List.filter_append, ih]
      by_cases hj : j < i
      · have hne : (i == j) = false := by simp; omega
        simp [hj, Nat.lt_succ_of_lt hj, List.filter_cons, hne]
      · by_cases hj2 : j = i
        · subst hj2
          simp [hj, List.filter_cons]
        · have hlt : ¬ j < i + 1 := by omega
          have hne : (i == j) = false := by simp; omega
          simp [hj, hlt, List.filter_cons, hne]
  rw [haux n, if_pos h]

theorem flatten_map_singleton {α β : Type} (l : List α) (f : α → β) :
    (l.map fun x => [f x]).flatten = l.map f := by
  induction l with
  | nil => rfl
  | cons a as ih => simp only [List.map_cons, List.flatten_cons, ih, List.singleton_append]

theorem flatten_filter_unique {α β : Type} (key : α → Nat) (blocks : α → List β) :
    ∀ (l : List α), (l.map key).Nodup → ∀ x ∈ l,
      (l.map fun a => if key a = key x then blocks a else []).flatten = blocks x := by
  intro l
  induction l with
  | nil => intro _ x hx; cases hx
  | cons a as ih =>
    intro hnd x hx
    rw [List.map_cons] at hnd
    rw [List.nodup_cons] at hnd
    simp only [List.map_cons, List.flatten_cons]
    rcases List.mem_cons.mp hx with rfl | hx'
    · rw [if_pos rfl]
      have hrest : (as.map fun b => if key b = key x then blocks b else []).flatten = [] := by
        apply List.flatten_eq_nil_iff.mpr
        intro bl hbl
        obtain ⟨b, hb, rfl⟩ := List.mem_map.mp hbl
        rw [if_neg]
        intro hkey
        exact hnd.1 (hkey ▸ List.mem_map_of_mem key hb)
      rw [hrest, List.append_nil]
    · rw [if_neg, ih hnd.2 x hx', List.nil_append]
      intro hkey
      exact hnd.1 (hkey ▸ List.mem_map_of_mem key hx')

end FixedEffects

namespace FixedEffects

theorem filter_map_update (d : List SRow) (p : SRow → Bool) (f : SRow → ℚ)
    (hp : ∀ r : SRow, p ({ r with dependent := f r }) = p r) :
    (d.map fun r => ({ r with dependent := f r } : SRow)).filter p =
      (d.filter p).map fun r => ({ r with dependent := f r } : SRow) := by
  rw [List.filter_map]
  exact congrArg _ (List.filter_congr fun x _ => hp x)

/-- Balanced-grid demeaning identity: on a panel with one row per
(individual, year) cell, the cross-individual mean of the two-way-demeaned
series at any year equals the per-year mean of the time-demeaned series minus
twice the grand mean. -/
theorem grid_demean (inds : List Individual) (n sy : Nat) (F : Individual → Nat → SRow)
    (hid : ∀ ind ∈ inds, ∀ k, k < n → (F ind k).individual = ind.identifier)
    (hyear : ∀ ind ∈ inds, ∀ k, k < n → (F ind k).year = sy + k)
    (hnd : (inds.map fun i => i.identifier).Nodup)
    (j : Nat) (hj : j < n) :
    cross_individual_mean
        (sample_twfe ((inds.map fun ind => (List.range n).map (F ind)).flatten)) (sy + j) =
      cross_individual_mean
          (sample_time ((inds.map fun ind => (List.range n).map (F ind)).flatten)) (sy + j) -
        2 * grand_mean ((inds.map fun ind => (List.range n).map (F ind)).flatten) := by
  set d : List SRow := (inds.map fun ind => (List.range n).map (F ind)).flatten with hd
  have hfy : d.filter (fun r => r.year == sy + j) = inds.map fun ind => F ind j := by
    rw [hd, List.filter_flatten, List.map_map]
    have hblocks : ∀ ind ∈ inds,
        (List.filter (fun r => r.year == sy + j) ∘ fun ind => (List.range n).map (F ind)) ind
          = [F ind j] := by
      intro ind hind
      simp only [Function.comp_apply]
      rw [List.filter_map]
      have hcong : (List.range n).filter ((fun r => r.year == sy + j) ∘ F ind) =
          (List.range n).filter (fun k => k == j) := by
        apply List.filter_congr
        intro k hk
        rw [List.mem_range] at hk
        simp only [Function.comp_apply, hyear ind hind k hk]
        by_cases h : k = j
        · subst h; simp
        · have hne : ¬ (sy + k = sy + j) := by omega
          simp [h, hne]
      rw [hcong, filter_beq_range hj, List.map_cons, List.map_nil]
    rw [List.map_congr_left hblocks, flatten_map_singleton]
  have hfi : ∀ ind0 ∈ inds,
      d.filter (fun r => r.individual == ind0.identifier) = (List.range n).map (F ind0) := by
    intro ind0 hind0
    rw [hd, List.filter_flatten, List.map_map]
    have hblocks : ∀ ind ∈ inds,
        (List.filter (fun r => r.individual == ind0.identifier) ∘
            fun ind => (List.range n).map (F ind)) ind =
          if ind.identifier = ind0.identifier then (List.range n).map (F ind) else [] := by
      intro ind hind
      simp only [Function.comp_apply]
      by_cases hcase : ind.identifier = ind0.identifier
      · rw [if_pos hcase]
        apply List.filter_eq_self.mpr
        intro r hr
        obtain ⟨k, hk, rfl⟩ := List.mem_map.mp hr
        rw [List.mem_range] at hk
        simp [hid ind hind k hk, hcase]
      · rw [if_neg hcase]
        apply List.filter_eq_nil_iff.mpr
        intro r hr
        obtain ⟨k, hk, rfl⟩ := List.mem_map.mp hr
        rw [List.mem_range] at hk
        simp [hid ind hind k hk, hcase]
    rw [List.map_congr_left hblocks]
    exact flatten_filter_unique (fun i => i.identifier)
      (fun ind => (List.range n).map (F ind)) inds hnd ind0 hind0
  have hlen_d : d.length = inds.length * n := by
    rw [hd, List.length_flatten, List.map_map]
    have hconst : ∀ ind ∈ inds,
        (List.length ∘ fun ind => (List.range n).map (F ind)) ind = n := by
      intro ind _
      simp
    rw [List.map_congr_left hconst, List.map_const', List.sum_replicate, smul_eq_mul]
  have htotal : (d.map fun r => r.dependent).sum =
      (inds.map fun ind => ((List.range n).map fun k => (F ind k).dependent).sum).sum := by
    rw [hd, List.map_flatten, List.sum_flatten, List.map_map, List.map_map]
    apply congrArg
    apply List.map_congr_left
    intro ind _
    simp [Function.comp_def, List.map_map]
  have hMT : mean_time d (sy + j) =
      (inds.map fun ind => (F ind j).dependent).sum / inds.length := by
    unfold mean_time mean_list
    rw [hfy, List.map_map, List.length_map]
    rfl
  have hB : (inds.map fun ind => mean_individual d ind.identifier).sum =
      (inds.map fun ind => ((List.range n).map fun k => (F ind k).dependent).sum).sum / n := by
    rw [← sum_map_div]
    apply congrArg
    apply List.map_congr_left
    intro ind hind
    unfold mean_individual mean_list
    rw [hfi ind hind, List.map_map, List.length_map, List.length_range]
    rfl
  have hM : grand_mean d =
      (inds.map fun ind => ((List.range n).map fun k => (F ind k).dependent).sum).sum /
        (inds.length * n) := by
    unfold grand_mean mean_list
    rw [htotal, List.length_map, hlen_d]
    push_cast
    rfl
  have hmap1 : ((inds.map fun ind => F ind j).map (fun r : SRow =>
      ({ r with dependent := r.dependent - mean_individual d r.individual -
          mean_time d r.year - grand_mean d } : SRow))).map (fun r => r.dependent) =
      inds.map fun ind => (F ind j).dependent - mean_individual d ind.identifier -
        mean_time d (sy + j) - grand_mean d := by
    rw [List.map_map, List.map_map]
    apply List.map_congr_left
    intro ind hind
    show (F ind j).dependent - mean_individual d (F ind j).individual -
        mean_time d (F ind j).year - grand_mean d = _
    rw [hid ind hind j hj, hyear ind hind j hj]
  have hmap2 : ((inds.map fun ind => F ind j).map (fun r : SRow =>
      ({ r with dependent := r.dependent - mean_time d r.year } : SRow))).map
        (fun r => r.dependent) =
      inds.map fun ind => (F ind j).dependent - mean_time d (sy + j) := by
    rw [List.map_map, List.map_map]
    apply List.map_congr_left
    intro ind hind
    show (F ind j).dependent - mean_time d (F ind j).year = _
    rw [hyear ind hind j hj]
  have hLHS : cross_individual_mean (sample_twfe d) (sy + j) =
      ((inds.map fun ind => (F ind j).dependent).sum -
        (inds.map fun ind => mean_individual d ind.identifier).sum -
        inds.length * mean_time d (sy + j) - inds.length * grand_mean d) / inds.length := by
    unfold cross_individual_mean sample_twfe
    rw [filter_map_update d (fun r => r.year == sy + j)
      (fun r => r.dependent - mean_individual d r.individual - mean_time d r.year -
        grand_mean d) (fun r => rfl), hfy]
    unfold mean_list
    rw [hmap1]
    simp only [sum_map_sub, sum_map_const, List.length_map]
  have hRHS : cross_individual_mean (sample_time d) (sy + j) =
      ((inds.map fun ind => (F ind j).dependent).sum -
        inds.length * mean_time d (sy + j)) / inds.length := by
    unfold cross_individual_mean sample_time
    rw [filter_map_update d (fun r => r.year == sy + j)
      (fun r => r.dependent - mean_time d r.year) (fun r => rfl), hfy]
    unfold mean_list
    rw [hmap2]
    simp only [sum_map_sub, sum_map_const, List.length_map]
  rw [hLHS, hRHS, hB, hMT, hM]
  by_cases hN : inds.length = 0
  · rw [List.length_eq_zero.mp hN]
    simp
  · have hNq : (inds.length : ℚ) ≠ 0 := Nat.cast_ne_zero.mpr hN
    have hnq : (n : ℚ) ≠ 0 := Nat.cast_ne_zero.mpr (by omega)
    field_simp
    ring

end FixedEffects

namespace FixedEffects

theorem mapM_ok_forall {ε α β : Type} {f : α → Except ε β} :
    ∀ {l : List α} {res : List β}, l.mapM f = .ok res → ∀ x ∈ l, ∃ y, f x = .ok y := by
  intro l
  induction l with
  | nil => intro res h x hx; cases hx
  | cons a as ih =>
    intro res h x hx
    rw [← List.mapM'_eq_mapM] at h
    simp only [List.mapM'] at h
    obtain ⟨b, hfa, hrest⟩ := except_ok_of_bind h
    obtain ⟨ys, hys, -⟩ := except_ok_of_bind hrest
    rcases List.mem_cons.mp hx with rfl | hx'
    · exact ⟨b, hfa⟩
    · exact ih (by rw [← List.mapM'_eq_mapM]; exact hys) x hx'

/-- Under `Fixed` effects the assembled panel is the flattening of one
`panelRow` block per individual. -/
theorem build_data_fixed (g : RNG) (hg : g.Spec) (inds : List Individual) (sy ey : Nat)
    (hfx : ∀ ind ∈ inds, ind.effects_type = .Fixed) :
    Sample.build_data g inds sy ey =
      .ok ((inds.map fun ind => (List.range (ey - sy)).map (panelRow g ind sy ey)).flatten) := by
  have hall : ∀ ind ∈ inds,
      (ind.time_series g sy ey none >>= fun rows =>
        pure (rows.map fun r => ({ toRow := r, individual := ind.identifier } : SRow))) =
        .ok ((List.range (ey - sy)).map (panelRow g ind sy ey)) := by
    intro ind hind
    rw [time_series_fixed g hg ind sy ey none (hfx ind hind), except_bind_ok, except_pure_eq,
      List.map_map]
    rfl
  unfold Sample.build_data
  rw [mapM_eq_ok hall, except_bind_ok, except_pure_eq]

/-- C3 (amended): for the driver's 2013-2022 sample, at every year the
cross-individual mean of the two-way-demeaned series equals the time-demeaned
series' per-year mean minus TWICE the grand mean (the code subtracts, rather
than adds back, the grand mean, so one extra grand mean remains). -/
theorem twfe_crossmean_amended :
    ∀ g : RNG, g.Spec →
      ∀ (t : Option Nat) (eff : Effects) (nz : Noise) (smp : Sample),
        Sample.make g 2013 2022 t eff nz = .ok smp →
        ∀ y : Nat, 2013 ≤ y → y < 2022 →
          cross_individual_mean (sample_twfe smp.data) y =
            cross_individual_mean (sample_time smp.data) y - 2 * grand_mean smp.data := by
  intro g hg t eff nz smp h y hy1 hy2
  simp only [Sample.make] at h
  obtain ⟨d, hbd, hp⟩ := except_ok_of_bind h
  rw [except_pure_eq] at hp
  injection hp with hp
  subst hp
  obtain ⟨r1, r2, r3, hreq, hb1, hb2, hb3, h12, h23, hpool, hlenp⟩ := repeats_spec g hg
  have hclen : (Sample.init_clusters g).length ≠ 0 := by rw [hlenp]; omega
  have hindslen : (Sample.init_individuals (Sample.init_clusters g) eff nz).length =
      (Sample.init_clusters g).length := by
    rw [Sample.init_individuals, List.length_map, List.enum_length]
  have hne : Sample.init_individuals (Sample.init_clusters g) eff nz ≠ [] := by
    intro hnil
    rw [hnil] at hindslen
    exact hclen hindslen.symm
  have heffall : ∀ ind ∈ Sample.init_individuals (Sample.init_clusters g) eff nz,
      ind.effects_type = eff := by
    intro ind hind
    rw [Sample.init_individuals] at hind
    obtain ⟨p, hp2, rfl⟩ := List.mem_map.mp hind
    rfl
  have hndup : ((Sample.init_individuals (Sample.init_clusters g) eff nz).map
      fun i => i.identifier).Nodup := by
    rw [Sample.init_individuals, List.map_map]
    have hcomp : ((fun i : Individual => i.identifier) ∘
        fun p : Nat × Cluster => (⟨p.1, p.2, eff, nz⟩ : Individual)) = Prod.fst := rfl
    rw [hcomp, List.enum_map_fst]
    exact List.nodup_range _
  cases heff : eff with
  | Random =>
    exfalso
    unfold Sample.build_data at hbd
    obtain ⟨tss, hm, -⟩ := except_ok_of_bind hbd
    obtain ⟨ind0, hind0⟩ := List.exists_mem_of_ne_nil _ hne
    obtain ⟨y0, hy0⟩ := mapM_ok_forall hm ind0 hind0
    obtain ⟨rows0, hts0, -⟩ := except_ok_of_bind hy0
    have hfx0 := (time_series_ok_eq g hg hts0).1
    rw [heffall ind0 hind0, heff] at hfx0
    exact absurd hfx0 (by simp)
  | Fixed =>
    have hfx : ∀ ind ∈ Sample.init_individuals (Sample.init_clusters g) eff nz,
        ind.effects_type = .Fixed := by
      intro ind hind
      rw [heffall ind hind, heff]
    rw [build_data_fixed g hg _ 2013 2022 hfx] at hbd
    injection hbd with hbd
    subst hbd
    obtain ⟨j, rfl⟩ : ∃ j, y = 2013 + j := ⟨y - 2013, by omega⟩
    have hj : j < 2022 - 2013 := by omega
    exact grid_demean (Sample.init_individuals (Sample.init_clusters g) eff nz)
      (2022 - 2013) 2013 (fun ind k => panelRow g ind 2013 2022 k)
      (fun ind _ k _ => rfl) (fun ind _ k _ => rfl) hndup j hj

/-- Witness for the amended C3 at the lower-end generator and year 2013. -/
theorem twfe_crossmean_amended_witness :
    cross_individual_mean (sample_twfe demoData) 2013 =
      cross_individual_mean (sample_time demoData) 2013 - 2 * grand_mean demoData :=
  twfe_crossmean_amended loRNG loRNG_spec (some 2017) .Fixed .TRUE demoSample
    (by with_unfolding_all decide) 2013 (by decide) (by decide)

end FixedEffects
